import Mathlib

/-!
Shallow embedding of the index query layer of `src/rpc/index.cpp` together
with the key/value data model of `src/spentindex.h`.

Modelling conventions:
* `uint256` hashes (txids, block hashes, address hash bytes) are modelled as `Nat`;
  the hex rendering `GetHex` of a fixed-width hash is order-isomorphic to that `Nat`.
* C++ amounts (satoshis, `int64_t`) and `int` heights are modelled as `Int`; `unsigned int` positions
  and indices as `Nat`.
* The persistent block-tree database (`txdb`), the mempool container and the
  active-chain structure are external collaborators of this translation unit;
  they are modelled as abstract function fields returning `Option`/`Bool`
  (a `none` models the C++ read call returning `false`).
* The global feature flags `fAddressIndex`, `fSpentIndex`, `fTimestampIndex`
  and the chain state are packaged in a `NodeEnv` record passed explicitly.
* A JSON-RPC handler body is a function into `Except RPCError result`;
  a `throw JSONRPCError(...)` is an `Except.error` carrying the distinct
  error constructor for that message.
-/

namespace UmamiIndex


/-- Address-index entry key (struct `CAddressIndexKey` in `spentindex.h`). -/
structure CAddressIndexKey where
  type : Nat
  hashBytes : Nat
  blockHeight : Int
  txindex : Nat
  txhash : Nat
  index : Nat
  spending : Bool
deriving DecidableEq, Repr

/-- Address-unspent entry key (struct `CAddressUnspentKey` in `spentindex.h`). -/
structure CAddressUnspentKey where
  type : Nat
  hashBytes : Nat
  txhash : Nat
  index : Nat
deriving DecidableEq, Repr

/-- Address-unspent entry value (struct `CAddressUnspentValue` in `spentindex.h`);
the script is a byte vector. -/
structure CAddressUnspentValue where
  satoshis : Int
  script : List Nat
  blockHeight : Int
deriving DecidableEq, Repr

/-- Spent-index key (struct `CSpentIndexKey` in `spentindex.h`). -/
structure CSpentIndexKey where
  txid : Nat
  outputIndex : Nat
deriving DecidableEq, Repr

/-- Spent-index value (struct `CSpentIndexValue` in `spentindex.h`). -/
structure CSpentIndexValue where
  txid : Nat
  inputIndex : Nat
  blockHeight : Int
  satoshis : Int
  addressType : Nat
  addressHash : Nat
deriving DecidableEq, Repr

/-- Mempool address-delta key; the struct lives in `addressindex.h` (outside this
translation unit) and is modelled from its uses in `src/rpc/index.cpp`
(fields `type`, `addressBytes`, `txhash`, `index`). -/
structure CMempoolAddressDeltaKey where
  type : Nat
  addressBytes : Nat
  txhash : Nat
  index : Nat
deriving DecidableEq, Repr

/-- Mempool address-delta value; modelled from its uses in `src/rpc/index.cpp`
(fields `time`, `amount`, `prevhash`, `prevout`) and spec section 3. -/
structure CMempoolAddressDelta where
  time : Int
  amount : Int
  prevhash : Nat
  prevout : Nat
deriving DecidableEq, Repr

/-- Address-type discriminator `ADDR_INDT_UNKNOWN`; the enum lives in
`addressindex.h`, concrete numerals are representative (only distinctness
of the tags is used). -/
def ADDR_INDT_UNKNOWN : Nat := 0

/-- Address-type discriminator `ADDR_INDT_SCRIPT_ADDRESS`. -/
def ADDR_INDT_SCRIPT_ADDRESS : Nat := 1

/-- Address-type discriminator `ADDR_INDT_PUBKEY_ADDRESS`. -/
def ADDR_INDT_PUBKEY_ADDRESS : Nat := 2

/-- Address-type discriminator `ADDR_INDT_WITNESS_V0_KEYHASH`. -/
def ADDR_INDT_WITNESS_V0_KEYHASH : Nat := 3

/-- Address-type discriminator `ADDR_INDT_WITNESS_V0_SCRIPTHASH`. -/
def ADDR_INDT_WITNESS_V0_SCRIPTHASH : Nat := 4

/-- Address-type discriminator `ADDR_INDT_WITNESS_V1_TAPROOT`. -/
def ADDR_INDT_WITNESS_V1_TAPROOT : Nat := 5

/-- Modelled from the spec: `COINBASE_MATURITY` is the coinbase maturity
threshold from the consensus headers, which are outside this translation
unit; the spec's concrete scenario assumes a maturity window of 100. -/
def COINBASE_MATURITY : Int := 100

/-- Success/failure of `getAddressFromIndex` in `src/rpc/index.cpp`: the
function recognises exactly the five concrete address types (the encoded
string itself is produced by the external codec collaborator). -/
def getAddressFromIndex (type : Nat) : Bool :=
  type == ADDR_INDT_SCRIPT_ADDRESS || type == ADDR_INDT_PUBKEY_ADDRESS ||
  type == ADDR_INDT_WITNESS_V0_KEYHASH || type == ADDR_INDT_WITNESS_V0_SCRIPTHASH ||
  type == ADDR_INDT_WITNESS_V1_TAPROOT

/-- Comparator `heightSort` of `src/rpc/index.cpp` (strict `<` on the unspent
value's `blockHeight`), used by `std::sort` in `getaddressutxos`. -/
def heightSort (a b : CAddressUnspentKey × CAddressUnspentValue) : Bool :=
  a.2.blockHeight < b.2.blockHeight

/-- Comparator `timestampSort` of `src/rpc/index.cpp` (strict `<` on the
mempool delta's `time`), used by `std::sort` in `getaddressmempool`. -/
def timestampSort (a b : CMempoolAddressDeltaKey × CMempoolAddressDelta) : Bool :=
  a.2.time < b.2.time

/-- Block-tree database collaborator (the `ReadXxx` methods of `txdb`,
external to this translation unit); a `none` result models the read
returning `false`. `readAddressIndex` takes address hash, type, start and
end heights (0/0 meaning unbounded). -/
structure BlockTreeDB where
  readAddressIndex : Nat → Nat → Int → Int → Option (List (CAddressIndexKey × Int))
  readAddressUnspentIndex : Nat → Nat → Option (List (CAddressUnspentKey × CAddressUnspentValue))
  readSpentIndex : CSpentIndexKey → Option CSpentIndexValue
  readTimestampIndex : Nat → Nat → Option (List (Nat × Nat))

/-- Mempool collaborator: `getSpentIndex` and `getAddressIndex` of
`CTxMemPool` as called from `src/rpc/index.cpp`. -/
structure Mempool where
  getSpentIndex : CSpentIndexKey → Option CSpentIndexValue
  getAddressIndex : List (Nat × Nat) → Option (List (CMempoolAddressDeltaKey × CMempoolAddressDelta))

/-- Node environment: the feature flags, the block-tree database, the mempool
and a snapshot of the active chain (`Height()`, tip hash, height-to-hash map,
and the `HashOnchainActive` membership test). -/
structure NodeEnv where
  fAddressIndex : Bool
  fSpentIndex : Bool
  fTimestampIndex : Bool
  db : BlockTreeDB
  mempool : Mempool
  activeChainHeight : Int
  activeChainTipHash : Nat
  blockHashAt : Int → Nat
  hashOnchainActive : Nat → Bool

/-- Error outcomes of the RPC handlers; each constructor stands for one
distinct `JSONRPCError` message thrown in `src/rpc/index.cpp`. -/
inductive RPCError where
  /-- RPC_INVALID_ADDRESS_OR_KEY "Invalid address". -/
  | invalidAddress
  /-- RPC_MISC_ERROR "Address index is not enabled.". -/
  | addressIndexNotEnabled
  /-- RPC_INVALID_ADDRESS_OR_KEY "No information available for address". -/
  | noInfoForAddress
  /-- RPC_INVALID_ADDRESS_OR_KEY "No information available for block hashes". -/
  | noInfoForBlockHashes
  /-- RPC_INVALID_ADDRESS_OR_KEY "Unable to get spent info". -/
  | unableToGetSpentInfo
  /-- RPC_INVALID_ADDRESS_OR_KEY "Start and end is expected to be greater than zero". -/
  | rangeNotPositive
  /-- RPC_INVALID_ADDRESS_OR_KEY "End value is expected to be greater than start". -/
  | rangeEndBeforeStart
  /-- RPC_INVALID_ADDRESS_OR_KEY "Start or end is outside chain range". -/
  | outsideChainRange
  /-- RPC_INVALID_ADDRESS_OR_KEY "Unknown address type". -/
  | unknownAddressType
  /-- RPC_INVALID_ADDRESS_OR_KEY "Invalid txid or index". -/
  | invalidTxidOrIndex
deriving DecidableEq, Repr

/-- Helper `GetAddressIndex` of `src/rpc/index.cpp`: fails when
`fAddressIndex` is off, otherwise reads the address index (optionally
height-bounded) from the block-tree database. -/
def GetAddressIndex (fAddressIndex : Bool) (db : BlockTreeDB) (addressHash : Nat) (type : Nat)
    (start endVal : Int) : Option (List (CAddressIndexKey × Int)) :=
  if fAddressIndex then db.readAddressIndex addressHash type start endVal else none

/-- Helper `GetAddressUnspent` of `src/rpc/index.cpp`. -/
def GetAddressUnspent (fAddressIndex : Bool) (db : BlockTreeDB) (addressHash : Nat) (type : Nat) :
    Option (List (CAddressUnspentKey × CAddressUnspentValue)) :=
  if fAddressIndex then db.readAddressUnspentIndex addressHash type else none

/-- Helper `GetSpentIndex` of `src/rpc/index.cpp`: fails when `fSpentIndex`
is off, otherwise first consults the mempool (when supplied) and falls back
to the persistent spent index. -/
def GetSpentIndex (fSpentIndex : Bool) (db : BlockTreeDB) (pmempool : Option Mempool)
    (key : CSpentIndexKey) : Option CSpentIndexValue :=
  if !fSpentIndex then none
  else
    match pmempool with
    | some mp =>
      match mp.getSpentIndex key with
      | some v => some v
      | none => db.readSpentIndex key
    | none => db.readSpentIndex key

/-- Helper `GetTimestampIndex` of `src/rpc/index.cpp`: fails when
`fTimestampIndex` is off, otherwise reads the `[low, high]` scan from the
database and, when `fActiveOnly` is set, erases in place every entry whose
hash fails `HashOnchainActive` (the erase-while-iterating loop is a filter). -/
def GetTimestampIndex (fTimestampIndex : Bool) (db : BlockTreeDB) (active : Nat → Bool)
    (high low : Nat) (fActiveOnly : Bool) : Option (List (Nat × Nat)) :=
  if !fTimestampIndex then none
  else
    match db.readTimestampIndex high low with
    | none => none
    | some hashes => some (if fActiveOnly then hashes.filter (fun p => active p.1) else hashes)

/-- Scan loop shared by the address-index RPC handlers: for each resolved
address (hash, type) call `GetAddressIndex` and append its entries, failing
with "No information available for address" on the first read failure. -/
def scanAddressIndex (fAddressIndex : Bool) (db : BlockTreeDB) (start endVal : Int) :
    List (Nat × Nat) → Except RPCError (List (CAddressIndexKey × Int))
  | [] => .ok []
  | a :: rest =>
    match GetAddressIndex fAddressIndex db a.1 a.2 start endVal with
    | none => .error .noInfoForAddress
    | some es =>
      match scanAddressIndex fAddressIndex db start endVal rest with
      | .error e => .error e
      | .ok r => .ok (es ++ r)

/-- Scan loop of `getaddressutxos`, accumulating unspent outputs per address. -/
def scanAddressUnspent (fAddressIndex : Bool) (db : BlockTreeDB) :
    List (Nat × Nat) → Except RPCError (List (CAddressUnspentKey × CAddressUnspentValue))
  | [] => .ok []
  | a :: rest =>
    match GetAddressUnspent fAddressIndex db a.1 a.2 with
    | none => .error .noInfoForAddress
    | some es =>
      match scanAddressUnspent fAddressIndex db rest with
      | .error e => .error e
      | .ok r => .ok (es ++ r)

/-- Result object of the balance handlers (`balance`, `balance_immature`,
`balance_spendable`, `received`). -/
structure BalanceResult where
  balance : Int
  balance_immature : Int
  balance_spendable : Int
  received : Int
deriving DecidableEq, Repr

/-- Classification used by the balance loop: an entry is counted into the
immature bucket exactly when `txindex == 0 && nHeight - blockHeight <
COINBASE_MATURITY` (the maturity threshold is passed explicitly). -/
def isImmatureEntry (nHeight maturity : Int) (k : CAddressIndexKey) : Bool :=
  k.txindex == 0 && decide (nHeight - k.blockHeight < maturity)

/-- Test `it->second > 0` of the balance loop: the entry's delta is
positive (a receive). -/
def isPositiveDelta (e : CAddressIndexKey × Int) : Bool :=
  e.2 > 0

/-- Test for a strictly negative delta (a spend). -/
def isNegativeDelta (e : CAddressIndexKey × Int) : Bool :=
  e.2 < 0

/-- Loop body of the balance handlers: update the four accumulators from
one scanned address-index entry. -/
def balanceStep (nHeight maturity : Int) (acc : BalanceResult)
    (e : CAddressIndexKey × Int) : BalanceResult :=
  { balance := acc.balance + e.2,
    received := if isPositiveDelta e then acc.received + e.2 else acc.received,
    balance_immature :=
      if isImmatureEntry nHeight maturity e.1 then acc.balance_immature + e.2
      else acc.balance_immature,
    balance_spendable :=
      if isImmatureEntry nHeight maturity e.1 then acc.balance_spendable
      else acc.balance_spendable + e.2 }

/-- Accumulation loop of the balance handlers over the scanned entries,
starting from four zero accumulators. -/
def computeBalance (nHeight maturity : Int) (entries : List (CAddressIndexKey × Int)) :
    BalanceResult :=
  entries.foldl (balanceStep nHeight maturity) ⟨0, 0, 0, 0⟩

/-- Handler body of `getaddressbalance` (single-address form of the RPC):
scan the address index for every resolved address, then fold the balance
accumulators at the current active-chain height. -/
def getaddressbalance (env : NodeEnv) (addresses : List (Nat × Nat)) :
    Except RPCError BalanceResult :=
  match scanAddressIndex env.fAddressIndex env.db 0 0 addresses with
  | .error e => .error e
  | .ok addressIndex =>
    .ok (computeBalance env.activeChainHeight COINBASE_MATURITY addressIndex)

/-- Handler body of `getaddressesbalance` (array form of the RPC); the body
in `src/rpc/index.cpp` is textually identical to `getaddressbalance`. -/
def getaddressesbalance (env : NodeEnv) (addresses : List (Nat × Nat)) :
    Except RPCError BalanceResult :=
  match scanAddressIndex env.fAddressIndex env.db 0 0 addresses with
  | .error e => .error e
  | .ok addressIndex =>
    .ok (computeBalance env.activeChainHeight COINBASE_MATURITY addressIndex)

/-- Result row of `getaddressutxos` (the address is kept as its raw
(type, hash) pair; the string form comes from the external codec). -/
structure UtxoRow where
  addressType : Nat
  addressHash : Nat
  txid : Nat
  outputIndex : Nat
  script : List Nat
  satoshis : Int
  height : Int
deriving DecidableEq, Repr

/-- Row construction of the `getaddressutxos` output loop. -/
def utxoRow (e : CAddressUnspentKey × CAddressUnspentValue) : UtxoRow :=
  { addressType := e.1.type, addressHash := e.1.hashBytes, txid := e.1.txhash,
    outputIndex := e.1.index, script := e.2.script, satoshis := e.2.satoshis,
    height := e.2.blockHeight }

/-- Output loop of `getaddressutxos`: build one row per sorted unspent
output, failing with "Unknown address type" when `getAddressFromIndex`
rejects the entry's type. -/
def utxoRows : List (CAddressUnspentKey × CAddressUnspentValue) → Except RPCError (List UtxoRow)
  | [] => .ok []
  | e :: rest =>
    if getAddressFromIndex e.1.type then
      match utxoRows rest with
      | .error err => .error err
      | .ok r => .ok (utxoRow e :: r)
    else .error .unknownAddressType

/-- Result of `getaddressutxos`: the plain array, or the array wrapped
with the chain tip hash and height when `chainInfo` is requested. -/
inductive UtxosResult where
  | plain (utxos : List UtxoRow)
  | withChain (utxos : List UtxoRow) (tipHash : Nat) (tipHeight : Int)
deriving DecidableEq, Repr

/-- Utxo list carried by a `UtxosResult`. -/
def UtxosResult.utxos : UtxosResult → List UtxoRow
  | .plain u => u
  | .withChain u _ _ => u

/-- Total-preorder relation induced by the strict comparator `heightSort`:
the order in which `std::sort(unspentOutputs, heightSort)` leaves the list
nondecreasing. -/
def heightRel (a b : CAddressUnspentKey × CAddressUnspentValue) : Prop :=
  a.2.blockHeight ≤ b.2.blockHeight

instance : DecidableRel heightRel := fun a b => Int.decLe _ _

instance : IsTotal (CAddressUnspentKey × CAddressUnspentValue) heightRel :=
  ⟨fun a b => Int.le_total a.2.blockHeight b.2.blockHeight⟩

instance : IsTrans (CAddressUnspentKey × CAddressUnspentValue) heightRel :=
  ⟨fun _ _ _ h1 h2 => le_trans h1 h2⟩

theorem heightRel_iff_not_heightSort (a b : CAddressUnspentKey × CAddressUnspentValue) :
    heightRel a b ↔ heightSort b a = false := by
  simp [heightRel, heightSort]

/-- Handler body of `getaddressutxos`: flag gate, per-address unspent scan,
`std::sort` by `heightSort` (modelled as a deterministic insertion sort,
fixing the implementation-defined tie order), row building, and the
optional chain-info wrapper read under the chain-state lock snapshot. -/
def getaddressutxos (env : NodeEnv) (addresses : List (Nat × Nat)) (includeChainInfo : Bool) :
    Except RPCError UtxosResult :=
  if !env.fAddressIndex then .error .addressIndexNotEnabled
  else
    match scanAddressUnspent env.fAddressIndex env.db addresses with
    | .error e => .error e
    | .ok unspentOutputs =>
      match utxoRows (List.insertionSort heightRel unspentOutputs) with
      | .error e => .error e
      | .ok rows =>
        if includeChainInfo then
          .ok (.withChain rows env.activeChainTipHash env.activeChainHeight)
        else .ok (.plain rows)

/-- Result row of `getaddressdeltas`. -/
structure DeltaRow where
  satoshis : Int
  txid : Nat
  index : Nat
  blockindex : Nat
  height : Int
  addressType : Nat
  addressHash : Nat
deriving DecidableEq, Repr

/-- Row construction of the `getaddressdeltas` output loop. -/
def deltaRow (e : CAddressIndexKey × Int) : DeltaRow :=
  { satoshis := e.2, txid := e.1.txhash, index := e.1.index, blockindex := e.1.txindex,
    height := e.1.blockHeight, addressType := e.1.type, addressHash := e.1.hashBytes }

/-- Output loop of `getaddressdeltas`, failing on an unknown address type. -/
def deltaRows : List (CAddressIndexKey × Int) → Except RPCError (List DeltaRow)
  | [] => .ok []
  | e :: rest =>
    if getAddressFromIndex e.1.type then
      match deltaRows rest with
      | .error err => .error err
      | .ok r => .ok (deltaRow e :: r)
    else .error .unknownAddressType

/-- Result of `getaddressdeltas`: the plain array, or the array together
with the block hash and height at the start and end of the range. -/
inductive DeltasResult where
  | plain (deltas : List DeltaRow)
  | withChain (deltas : List DeltaRow) (startHash : Nat) (startHeight : Int)
      (endHash : Nat) (endHeight : Int)
deriving DecidableEq, Repr

/-- Handler body of `getaddressdeltas`: flag gate; then the start/end
arguments are parsed only when BOTH are numeric (otherwise both default to
0 and the scan is unbounded), validated to be positive with `end >= start`;
then the per-address scan (height-bounded exactly when both are positive),
the output rows, and the optional chain-info block resolved under the
chain lock with the tip-range check. -/
def getaddressdeltas (env : NodeEnv) (addresses : List (Nat × Nat))
    (startValue endValue : Option Int) (includeChainInfo : Bool) :
    Except RPCError DeltasResult :=
  if !env.fAddressIndex then .error .addressIndexNotEnabled
  else
    match startValue, endValue with
    | some s, some e =>
      if s ≤ 0 ∨ e ≤ 0 then .error .rangeNotPositive
      else if e < s then .error .rangeEndBeforeStart
      else getaddressdeltasScan env addresses s e includeChainInfo
    | _, _ => getaddressdeltasScan env addresses 0 0 includeChainInfo
where
  /-- Portion of the handler after range validation (`start`/`end` fixed). -/
  getaddressdeltasScan (env : NodeEnv) (addresses : List (Nat × Nat))
      (start endVal : Int) (includeChainInfo : Bool) : Except RPCError DeltasResult :=
    match (if start > 0 ∧ endVal > 0 then
            scanAddressIndex env.fAddressIndex env.db start endVal addresses
          else scanAddressIndex env.fAddressIndex env.db 0 0 addresses) with
    | .error e => .error e
    | .ok addressIndex =>
      match deltaRows addressIndex with
      | .error e => .error e
      | .ok rows =>
        if includeChainInfo ∧ start > 0 ∧ endVal > 0 then
          if start > env.activeChainHeight ∨ endVal > env.activeChainHeight then
            .error .outsideChainRange
          else
            .ok (.withChain rows (env.blockHashAt start) start (env.blockHashAt endVal) endVal)
        else .ok (.plain rows)

/-- Strict lexicographic order on the (height, txid) pairs held by the
`std::set<std::pair<int, std::string>>` of `getaddresstxids`; the txid's
fixed-width hex string compares like the underlying number. -/
def pairLt (a b : Int × Nat) : Bool :=
  a.1 < b.1 || (a.1 == b.1 && a.2 < b.2)

/-- Ordered-set insertion mirroring `std::set::insert` on a sorted,
duplicate-free list: returns the new list and whether the element was
actually inserted. -/
def setInsert (p : Int × Nat) : List (Int × Nat) → List (Int × Nat) × Bool
  | [] => ([p], true)
  | q :: rest =>
    if pairLt p q then (p :: q :: rest, true)
    else if pairLt q p then
      let r := setInsert p rest
      (q :: r.1, r.2)
    else (q :: rest, false)

/-- Dedup loop of `getaddresstxids` over the scanned entries' (height,
txid) pairs: in multi-address mode only the set is grown; in single-address
mode a txid is appended to the result exactly when its pair was newly
inserted. -/
def txidsFold (multi : Bool) : List (Int × Nat) → List (Int × Nat) → List Nat →
    List (Int × Nat) × List Nat
  | [], s, r => (s, r)
  | p :: rest, s, r =>
    let ins := setInsert p s
    txidsFold multi rest ins.1 (if multi then r else if ins.2 then r ++ [p.2] else r)

/-- The (height, txid) pair of one scanned address-index entry. -/
def entryPair (e : CAddressIndexKey × Int) : Int × Nat :=
  (e.1.blockHeight, e.1.txhash)

/-- Result assembly of `getaddresstxids`: with more than one queried
address the final output is the ordered set's txids, otherwise the txids
collected in scan order. -/
def txidsResult (naddr : Nat) (entries : List (CAddressIndexKey × Int)) : List Nat :=
  let fold := txidsFold (naddr > 1) (entries.map entryPair) [] []
  if naddr > 1 then fold.1.map (·.2) else fold.2

/-- Handler body of `getaddresstxids`: flag gate; start/end used only when
both numeric (no positivity validation here); per-address scan (bounded
exactly when both are positive); then the dedup/ordering loop. -/
def getaddresstxids (env : NodeEnv) (addresses : List (Nat × Nat))
    (startValue endValue : Option Int) : Except RPCError (List Nat) :=
  if !env.fAddressIndex then .error .addressIndexNotEnabled
  else
    let se : Int × Int :=
      match startValue, endValue with
      | some s, some e => (s, e)
      | _, _ => (0, 0)
    match (if se.1 > 0 ∧ se.2 > 0 then
            scanAddressIndex env.fAddressIndex env.db se.1 se.2 addresses
          else scanAddressIndex env.fAddressIndex env.db 0 0 addresses) with
    | .error e => .error e
    | .ok addressIndex => .ok (txidsResult addresses.length addressIndex)

/-- Result row of `getaddressmempool`; `prev` carries the (prevtxid,
prevout) pair exactly when the handler pushes those two keys. -/
structure MempoolDeltaRow where
  addressType : Nat
  addressHash : Nat
  txid : Nat
  index : Nat
  satoshis : Int
  timestamp : Int
  prev : Option (Nat × Nat)
deriving DecidableEq, Repr

/-- Row construction of the `getaddressmempool` output loop: the prevtxid
and prevout keys are attached exactly when the delta amount is negative. -/
def mempoolRow (e : CMempoolAddressDeltaKey × CMempoolAddressDelta) : MempoolDeltaRow :=
  { addressType := e.1.type, addressHash := e.1.addressBytes, txid := e.1.txhash,
    index := e.1.index, satoshis := e.2.amount, timestamp := e.2.time,
    prev := if e.2.amount < 0 then some (e.2.prevhash, e.2.prevout) else none }

/-- Output loop of `getaddressmempool`, failing on an unknown address type. -/
def mempoolRows : List (CMempoolAddressDeltaKey × CMempoolAddressDelta) →
    Except RPCError (List MempoolDeltaRow)
  | [] => .ok []
  | e :: rest =>
    if getAddressFromIndex e.1.type then
      match mempoolRows rest with
      | .error err => .error err
      | .ok r => .ok (mempoolRow e :: r)
    else .error .unknownAddressType

/-- Total-preorder relation induced by the strict comparator
`timestampSort`: the order in which `std::sort(indexes, timestampSort)`
leaves the list nondecreasing. -/
def timeRel (a b : CMempoolAddressDeltaKey × CMempoolAddressDelta) : Prop :=
  a.2.time ≤ b.2.time

instance : DecidableRel timeRel := fun a b => Int.decLe _ _

instance : IsTotal (CMempoolAddressDeltaKey × CMempoolAddressDelta) timeRel :=
  ⟨fun a b => Int.le_total a.2.time b.2.time⟩

instance : IsTrans (CMempoolAddressDeltaKey × CMempoolAddressDelta) timeRel :=
  ⟨fun _ _ _ h1 h2 => le_trans h1 h2⟩

theorem timeRel_iff_not_timestampSort (a b : CMempoolAddressDeltaKey × CMempoolAddressDelta) :
    timeRel a b ↔ timestampSort b a = false := by
  simp [timeRel, timestampSort]

/-- Handler body of `getaddressmempool`: flag gate, mempool collaborator
lookup, `std::sort` by `timestampSort` (modelled as a deterministic
insertion sort), then the output rows. -/
def getaddressmempool (env : NodeEnv) (addresses : List (Nat × Nat)) :
    Except RPCError (List MempoolDeltaRow) :=
  if !env.fAddressIndex then .error .addressIndexNotEnabled
  else
    match env.mempool.getAddressIndex addresses with
    | none => .error .noInfoForAddress
    | some indexes => mempoolRows (List.insertionSort timeRel indexes)

/-- Result object of `getspentinfo`. -/
structure SpentInfoRow where
  txid : Nat
  index : Nat
  height : Int
deriving DecidableEq, Repr

/-- Handler body of `getspentinfo` (txid and output index already parsed):
a failed `GetSpentIndex` lookup is surfaced as "Unable to get spent info". -/
def getspentinfo (env : NodeEnv) (key : CSpentIndexKey) : Except RPCError SpentInfoRow :=
  match GetSpentIndex env.fSpentIndex env.db (some env.mempool) key with
  | none => .error .unableToGetSpentInfo
  | some value => .ok ⟨value.txid, value.inputIndex, value.blockHeight⟩

/-- Sum of the amount deltas of a list of address-index entries. -/
def sumDeltas (l : List (CAddressIndexKey × Int)) : Int :=
  (l.map (·.2)).sum

/-- Sum of the amount deltas of the entries satisfying a predicate. -/
def sumDeltasIf (p : CAddressIndexKey × Int → Bool) (l : List (CAddressIndexKey × Int)) : Int :=
  ((l.filter p).map (·.2)).sum

/-!  Theorems -/

theorem sumDeltas_nil : sumDeltas [] = 0 := rfl

theorem sumDeltas_cons (e : CAddressIndexKey × Int) (l : List (CAddressIndexKey × Int)) :
    sumDeltas (e :: l) = e.2 + sumDeltas l := by
  simp [sumDeltas]

theorem sumDeltasIf_nil (p : CAddressIndexKey × Int → Bool) : sumDeltasIf p [] = 0 := rfl

theorem sumDeltasIf_cons (p : CAddressIndexKey × Int → Bool) (e : CAddressIndexKey × Int)
    (l : List (CAddressIndexKey × Int)) :
    sumDeltasIf p (e :: l) = if p e then e.2 + sumDeltasIf p l else sumDeltasIf p l := by
  simp only [sumDeltasIf, List.filter_cons]
  split <;> simp

theorem balanceStep_balance (nHeight maturity : Int) (acc : BalanceResult)
    (e : CAddressIndexKey × Int) :
    (balanceStep nHeight maturity acc e).balance = acc.balance + e.2 := rfl

theorem balanceStep_received (nHeight maturity : Int) (acc : BalanceResult)
    (e : CAddressIndexKey × Int) :
    (balanceStep nHeight maturity acc e).received =
      if isPositiveDelta e then acc.received + e.2 else acc.received := rfl

theorem balanceStep_immature (nHeight maturity : Int) (acc : BalanceResult)
    (e : CAddressIndexKey × Int) :
    (balanceStep nHeight maturity acc e).balance_immature =
      if isImmatureEntry nHeight maturity e.1 then acc.balance_immature + e.2
      else acc.balance_immature := rfl

theorem balanceStep_spendable (nHeight maturity : Int) (acc : BalanceResult)
    (e : CAddressIndexKey × Int) :
    (balanceStep nHeight maturity acc e).balance_spendable =
      if isImmatureEntry nHeight maturity e.1 then acc.balance_spendable
      else acc.balance_spendable + e.2 := rfl

theorem balanceFold_fields (nHeight maturity : Int) (l : List (CAddressIndexKey × Int)) :
    ∀ acc : BalanceResult,
      (List.foldl (balanceStep nHeight maturity) acc l).balance = acc.balance + sumDeltas l ∧
      (List.foldl (balanceStep nHeight maturity) acc l).received =
        acc.received + sumDeltasIf isPositiveDelta l ∧
      (List.foldl (balanceStep nHeight maturity) acc l).balance_immature =
        acc.balance_immature + sumDeltasIf (fun e => isImmatureEntry nHeight maturity e.1) l ∧
      (List.foldl (balanceStep nHeight maturity) acc l).balance_spendable =
        acc.balance_spendable + sumDeltasIf (fun e => !isImmatureEntry nHeight maturity e.1) l := by
  induction l with
  | nil => intro acc; simp [sumDeltas, sumDeltasIf]
  | cons e l ih =>
    intro acc
    obtain ⟨hb, hr, hi, hs⟩ := ih (balanceStep nHeight maturity acc e)
    refine ⟨?_, ?_, ?_, ?_⟩
    · rw [List.foldl_cons, hb, sumDeltas_cons, balanceStep_balance]
      omega
    · rw [List.foldl_cons, hr, sumDeltasIf_cons, balanceStep_received]
      cases h : isPositiveDelta e <;> simp <;> omega
    · rw [List.foldl_cons, hi, sumDeltasIf_cons, balanceStep_immature]
      cases h : isImmatureEntry nHeight maturity e.1 <;> simp <;> omega
    · rw [List.foldl_cons, hs, sumDeltasIf_cons, balanceStep_spendable]
      cases h : isImmatureEntry nHeight maturity e.1 <;> simp <;> omega

theorem sumDeltasIf_split (p : CAddressIndexKey × Int → Bool)
    (l : List (CAddressIndexKey × Int)) :
    sumDeltas l = sumDeltasIf p l + sumDeltasIf (fun e => !p e) l := by
  induction l with
  | nil => simp [sumDeltas, sumDeltasIf]
  | cons e l ih =>
    rw [sumDeltas_cons, sumDeltasIf_cons, sumDeltasIf_cons]
    cases h : p e <;> simp <;> omega

theorem isPositiveDelta_iff (e : CAddressIndexKey × Int) :
    isPositiveDelta e = true ↔ e.2 > 0 := by
  simp [isPositiveDelta]

theorem isNegativeDelta_iff (e : CAddressIndexKey × Int) :
    isNegativeDelta e = true ↔ e.2 < 0 := by
  simp [isNegativeDelta]

theorem sumDeltasIf_pos_neg (l : List (CAddressIndexKey × Int)) :
    sumDeltas l = sumDeltasIf isPositiveDelta l + sumDeltasIf isNegativeDelta l := by
  induction l with
  | nil => simp [sumDeltas, sumDeltasIf]
  | cons e l ih =>
    rw [sumDeltas_cons, sumDeltasIf_cons, sumDeltasIf_cons]
    have hp := isPositiveDelta_iff e
    have hn := isNegativeDelta_iff e
    cases h1 : isPositiveDelta e <;> cases h2 : isNegativeDelta e <;>
      rw [h1] at hp <;> rw [h2] at hn <;> simp at hp hn <;> simp <;> omega

/-- C1: for every list of address-index entries and every current chain
height (and maturity threshold), the balance fold of the Balance query
satisfies `balance = balance_immature + balance_spendable` and
`balance = received + (sum of the negative deltas)`, where `received` is
the sum of the positive deltas and `balance` is the sum of all deltas. -/
theorem balance_additivity (nHeight maturity : Int) (entries : List (CAddressIndexKey × Int)) :
    (computeBalance nHeight maturity entries).balance =
      (computeBalance nHeight maturity entries).balance_immature +
      (computeBalance nHeight maturity entries).balance_spendable ∧
    (computeBalance nHeight maturity entries).balance =
      (computeBalance nHeight maturity entries).received +
      sumDeltasIf isNegativeDelta entries ∧
    (computeBalance nHeight maturity entries).received =
      sumDeltasIf isPositiveDelta entries ∧
    (computeBalance nHeight maturity entries).balance = sumDeltas entries := by
  obtain ⟨hb, hr, hi, hs⟩ := balanceFold_fields nHeight maturity entries ⟨0, 0, 0, 0⟩
  unfold computeBalance
  rw [hb, hr, hi, hs]
  have h1 := sumDeltasIf_split (fun e => isImmatureEntry nHeight maturity e.1) entries
  have h2 := sumDeltasIf_pos_neg entries
  refine ⟨by simp; omega, by simp; omega, by simp, by simp⟩

/-- C4: the balance fold counts an entry's delta into the immature bucket
iff its transaction position in the block is 0 and the entry's age
`nHeight - blockHeight` is strictly below the maturity threshold, and into
the spendable bucket otherwise; a single 50-unit coinbase entry at height
100 gives balance=50, received=50, immature=50, spendable=0 at tip height
100, and immature=0, spendable=50 at tip height 200 with maturity 100. -/
theorem coinbase_maturity_split (nHeight maturity : Int) :
    (∀ (acc : BalanceResult) (e : CAddressIndexKey × Int),
      (balanceStep nHeight maturity acc e).balance_immature =
        (if e.1.txindex = 0 ∧ nHeight - e.1.blockHeight < maturity then
          acc.balance_immature + e.2 else acc.balance_immature) ∧
      (balanceStep nHeight maturity acc e).balance_spendable =
        (if e.1.txindex = 0 ∧ nHeight - e.1.blockHeight < maturity then
          acc.balance_spendable else acc.balance_spendable + e.2)) ∧
    computeBalance 100 100 [(⟨1, 0, 100, 0, 7, 0, false⟩, 50)] =
      ⟨50, 50, 0, 50⟩ ∧
    computeBalance 200 100 [(⟨1, 0, 100, 0, 7, 0, false⟩, 50)] =
      ⟨50, 0, 50, 50⟩ := by
  refine ⟨fun acc e => ?_, by decide, by decide⟩
  constructor <;>
    · simp only [balanceStep, isImmatureEntry]
      by_cases h1 : e.1.txindex = 0 <;> by_cases h2 : nHeight - e.1.blockHeight < maturity <;>
        simp [h1, h2]

/-- C10: the handler bodies of `getaddressbalance` and `getaddressesbalance`
compute identical results on every node environment and resolved address
list. -/
theorem balance_handlers_agree :
    ∀ (env : NodeEnv) (addresses : List (Nat × Nat)),
      getaddressbalance env addresses = getaddressesbalance env addresses :=
  fun _ _ => rfl

/-- Database with no data at all (every read fails). -/
def emptyDB : BlockTreeDB :=
  { readAddressIndex := fun _ _ _ _ => none,
    readAddressUnspentIndex := fun _ _ => none,
    readSpentIndex := fun _ => none,
    readTimestampIndex := fun _ _ => none }

/-- Database whose address-index reads succeed with an empty entry list. -/
def emptyOkDB : BlockTreeDB :=
  { readAddressIndex := fun _ _ _ _ => some [],
    readAddressUnspentIndex := fun _ _ => some [],
    readSpentIndex := fun _ => none,
    readTimestampIndex := fun _ _ => some [] }

/-- Mempool with no data at all. -/
def emptyMempool : Mempool :=
  { getSpentIndex := fun _ => none,
    getAddressIndex := fun _ => some [] }

/-- Environment with every index family disabled. -/
def offEnv : NodeEnv :=
  { fAddressIndex := false, fSpentIndex := false, fTimestampIndex := false,
    db := emptyDB, mempool := emptyMempool, activeChainHeight := 0,
    activeChainTipHash := 0, blockHashAt := fun _ => 0,
    hashOnchainActive := fun _ => false }

/-- Environment with every index family enabled over empty-but-successful
stores. -/
def onEnv : NodeEnv :=
  { fAddressIndex := true, fSpentIndex := true, fTimestampIndex := true,
    db := emptyOkDB, mempool := emptyMempool, activeChainHeight := 1000,
    activeChainTipHash := 99, blockHashAt := fun _ => 0,
    hashOnchainActive := fun _ => true }

/-- C2 (amended): when the address index is disabled, the UTXO, deltas,
txids and mempool-deltas queries fail with the fixed "Address index is not
enabled." error; the balance query (on a nonempty address list) surfaces
the disabled flag as the generic "No information available for address"
lookup error, and the spent-info query (with the spent index disabled) as
the generic "Unable to get spent info" error. -/
theorem not_enabled_behaviour (env : NodeEnv) (addresses : List (Nat × Nat))
    (a : Nat × Nat) (rest : List (Nat × Nat)) (sv ev : Option Int) (ci : Bool)
    (key : CSpentIndexKey)
    (hA : env.fAddressIndex = false) (hS : env.fSpentIndex = false) :
    getaddressutxos env addresses ci = .error .addressIndexNotEnabled ∧
    getaddressdeltas env addresses sv ev ci = .error .addressIndexNotEnabled ∧
    getaddresstxids env addresses sv ev = .error .addressIndexNotEnabled ∧
    getaddressmempool env addresses = .error .addressIndexNotEnabled ∧
    getaddressbalance env (a :: rest) = .error .noInfoForAddress ∧
    getspentinfo env key = .error .unableToGetSpentInfo := by
  refine ⟨?_, ?_, ?_, ?_, ?_, ?_⟩ <;>
    simp [getaddressutxos, getaddressdeltas, getaddresstxids, getaddressmempool,
      getaddressbalance, getspentinfo, scanAddressIndex, GetAddressIndex, GetSpentIndex, hA, hS]

/-- C2 counterexample: with the address index disabled, the balance query
does not fail with the fixed "not enabled" configuration error; it fails
with the same "No information available for address" error that a lookup
miss produces, and likewise the spent-info query with the spent index
disabled fails with its generic "Unable to get spent info" error. -/
theorem not_enabled_counterexample :
    getaddressbalance offEnv [(0, 1)] = .error .noInfoForAddress ∧
    getaddressbalance offEnv [(0, 1)] ≠ .error .addressIndexNotEnabled ∧
    getspentinfo offEnv ⟨5, 0⟩ = .error .unableToGetSpentInfo ∧
    getspentinfo offEnv ⟨5, 0⟩ ≠ .error .addressIndexNotEnabled := by
  refine ⟨rfl, ?_, rfl, ?_⟩ <;> (intro h; exact RPCError.noConfusion (Except.error.inj h))

/-- Closed instance of `not_enabled_behaviour` at the all-disabled
environment. -/
theorem not_enabled_behaviour_witness :
    getaddressutxos offEnv [(0, 1)] false = .error .addressIndexNotEnabled ∧
    getaddressdeltas offEnv [(0, 1)] none none false = .error .addressIndexNotEnabled ∧
    getaddresstxids offEnv [(0, 1)] none none = .error .addressIndexNotEnabled ∧
    getaddressmempool offEnv [(0, 1)] = .error .addressIndexNotEnabled ∧
    getaddressbalance offEnv ((0, 1) :: []) = .error .noInfoForAddress ∧
    getspentinfo offEnv ⟨5, 0⟩ = .error .unableToGetSpentInfo :=
  not_enabled_behaviour offEnv [(0, 1)] (0, 1) [] none none false ⟨5, 0⟩ rfl rfl

/-- C3 (amended): when both `start` and `end` are supplied to the deltas
query, both must be strictly positive and `end >= start`, otherwise the
invalid-range errors are raised before any index data is returned (for
every database state); when only one of the two is supplied, both are
silently ignored and the query behaves exactly like an unbounded query. -/
theorem deltas_range_validation (env : NodeEnv) (addresses : List (Nat × Nat)) (ci : Bool)
    (hA : env.fAddressIndex = true) :
    (∀ s e : Int, s ≤ 0 ∨ e ≤ 0 →
      getaddressdeltas env addresses (some s) (some e) ci = .error .rangeNotPositive) ∧
    (∀ s e : Int, 0 < s → 0 < e → e < s →
      getaddressdeltas env addresses (some s) (some e) ci = .error .rangeEndBeforeStart) ∧
    (∀ s : Int, getaddressdeltas env addresses (some s) none ci =
      getaddressdeltas env addresses none none ci) ∧
    (∀ e : Int, getaddressdeltas env addresses none (some e) ci =
      getaddressdeltas env addresses none none ci) := by
  refine ⟨?_, ?_, fun _ => rfl, fun _ => rfl⟩
  · intro s e h
    simp [getaddressdeltas, hA, h]
  · intro s e hs he hlt
    have h1 : ¬ (s ≤ 0 ∨ e ≤ 0) := by omega
    simp [getaddressdeltas, hA, h1, hlt]

/-- C3 counterexample: supplying only the `start` bound does not raise an
invalid-range error; the query succeeds as an unbounded scan. -/
theorem deltas_range_counterexample :
    getaddressdeltas onEnv [(0, 1)] (some 5) none false = .ok (.plain []) ∧
    getaddressdeltas onEnv [(0, 1)] (some 5) none false ≠ .error .rangeNotPositive ∧
    getaddressdeltas onEnv [(0, 1)] (some 5) none false ≠ .error .rangeEndBeforeStart := by
  refine ⟨rfl, ?_, ?_⟩ <;> (intro h; exact Except.noConfusion h)

/-- Closed instance of `deltas_range_validation` at the enabled
environment. -/
theorem deltas_range_validation_witness :
    getaddressdeltas onEnv [(0, 1)] (some 0) (some 5) false = .error .rangeNotPositive ∧
    getaddressdeltas onEnv [(0, 1)] (some 5) (some 3) false = .error .rangeEndBeforeStart ∧
    getaddressdeltas onEnv [(0, 1)] (some 5) none false =
      getaddressdeltas onEnv [(0, 1)] none none false := by
  have h := deltas_range_validation onEnv [(0, 1)] false rfl
  exact ⟨h.1 0 5 (Or.inl (by decide)), h.2.1 5 3 (by decide) (by decide) (by decide), h.2.2.1 5⟩

/-- C5: with the spent-index flag enabled, `GetSpentIndex` returns the
mempool's record when the mempool lookup succeeds, falls back to the
persistent spent index when it does not, and returns not-found exactly
when neither the mempool nor the persistent index has a record. -/
theorem spent_lookup_fallback (db : BlockTreeDB) (mp : Mempool) (key : CSpentIndexKey) :
    (∀ v, mp.getSpentIndex key = some v → GetSpentIndex true db (some mp) key = some v) ∧
    (mp.getSpentIndex key = none → GetSpentIndex true db (some mp) key = db.readSpentIndex key) ∧
    (GetSpentIndex true db (some mp) key = none ↔
      mp.getSpentIndex key = none ∧ db.readSpentIndex key = none) := by
  unfold GetSpentIndex
  cases hm : mp.getSpentIndex key <;> simp [hm]

/-- Mempool holding one spent-index record for every key. -/
def spentMempool : Mempool :=
  { getSpentIndex := fun _ => some ⟨9, 0, 60, 10, 1, 0⟩,
    getAddressIndex := fun _ => some [] }

/-- Closed instance of `spent_lookup_fallback`: the mempool record wins
when present, and a double miss is a not-found. -/
theorem spent_lookup_fallback_witness :
    GetSpentIndex true emptyDB (some spentMempool) ⟨5, 0⟩ = some ⟨9, 0, 60, 10, 1, 0⟩ ∧
    GetSpentIndex true emptyDB (some emptyMempool) ⟨5, 0⟩ = none := by
  constructor
  · exact (spent_lookup_fallback emptyDB spentMempool ⟨5, 0⟩).1 ⟨9, 0, 60, 10, 1, 0⟩ rfl
  · exact (spent_lookup_fallback emptyDB emptyMempool ⟨5, 0⟩).2.2.mpr ⟨rfl, rfl⟩

/-- C7: with the timestamp index enabled and a scan result for the
(low, high) window, the active-only variant returns exactly the scanned
entries whose hash is on the active chain (every non-active hash removed,
every active entry of the range kept), and that filtered result is a
subsequence of the unfiltered result. -/
theorem timestamp_active_filter (db : BlockTreeDB) (active : Nat → Bool) (high low : Nat)
    (scan : List (Nat × Nat)) (hscan : db.readTimestampIndex high low = some scan) :
    GetTimestampIndex true db active high low true =
      some (scan.filter (fun p => active p.1)) ∧
    (∀ p, p ∈ scan.filter (fun p => active p.1) ↔ p ∈ scan ∧ active p.1 = true) ∧
    List.Sublist (scan.filter (fun p => active p.1)) scan ∧
    GetTimestampIndex true db active high low false = some scan := by
  refine ⟨by simp [GetTimestampIndex, hscan], fun p => by simp [List.mem_filter],
    List.filter_sublist scan, by simp [GetTimestampIndex, hscan]⟩

/-- Database holding two timestamp-index entries for every window. -/
def tsDB : BlockTreeDB :=
  { readAddressIndex := fun _ _ _ _ => none,
    readAddressUnspentIndex := fun _ _ => none,
    readSpentIndex := fun _ => none,
    readTimestampIndex := fun _ _ => some [(10, 1000), (11, 1001)] }

/-- Closed instance of `timestamp_active_filter`: the non-active hash 11
is removed, the active hash 10 kept. -/
theorem timestamp_active_filter_witness :
    GetTimestampIndex true tsDB (fun h => h == 10) 2000 0 true = some [(10, 1000)] ∧
    GetTimestampIndex true tsDB (fun h => h == 10) 2000 0 false =
      some [(10, 1000), (11, 1001)] := by
  have h := timestamp_active_filter tsDB (fun h => h == 10) 2000 0 [(10, 1000), (11, 1001)] rfl
  exact ⟨h.1, h.2.2.2⟩

theorem utxoRows_ok (l : List (CAddressUnspentKey × CAddressUnspentValue)) :
    ∀ r, utxoRows l = .ok r → r = l.map utxoRow := by
  induction l with
  | nil =>
    intro r h
    obtain rfl := Except.ok.inj h
    rfl
  | cons e rest ih =>
    intro r h
    simp only [utxoRows] at h
    by_cases hv : getAddressFromIndex e.1.type
    · rw [if_pos hv] at h
      cases hrest : utxoRows rest with
      | error err => rw [hrest] at h; exact Except.noConfusion h
      | ok rr =>
        rw [hrest] at h
        obtain rfl := Except.ok.inj h
        simp [ih rr hrest]
    · rw [if_neg hv] at h; exact Except.noConfusion h

/-- C8: on every successful run of the UTXO query, the returned rows are
sorted nondecreasing by block height and are a permutation of the rows of
the scanned unspent outputs (so the order is a deterministic reordering of
the scan with height as primary key). -/
theorem utxos_sorted (env : NodeEnv) (addresses : List (Nat × Nat)) (ci : Bool)
    (res : UtxosResult) (scan : List (CAddressUnspentKey × CAddressUnspentValue))
    (hscan : scanAddressUnspent env.fAddressIndex env.db addresses = .ok scan)
    (hres : getaddressutxos env addresses ci = .ok res) :
    List.Pairwise (fun a b : UtxoRow => a.height ≤ b.height) res.utxos ∧
    res.utxos.Perm (scan.map utxoRow) := by
  unfold getaddressutxos at hres
  split at hres
  · exact absurd hres (by simp)
  · split at hres
    next heq => rw [hscan] at heq; exact Except.noConfusion heq
    next u heq =>
      rw [hscan] at heq
      obtain rfl := Except.ok.inj heq
      split at hres
      next heq2 => exact Except.noConfusion hres
      next rows heq2 =>
        have hrows := utxoRows_ok _ _ heq2
        have hutxos : res.utxos = rows := by
          split at hres <;> (obtain rfl := Except.ok.inj hres; rfl)
        refine ⟨?_, ?_⟩
        · rw [hutxos, hrows]
          exact List.Pairwise.map _ (fun a b hab => hab)
            (List.sorted_insertionSort heightRel scan)
        · rw [hutxos, hrows]
          exact (List.perm_insertionSort heightRel scan).map utxoRow

/-- Unspent output of 10 satoshis at height 60. -/
def uA : CAddressUnspentKey × CAddressUnspentValue := (⟨1, 0, 5, 0⟩, ⟨10, [], 60⟩)

/-- Unspent output of 20 satoshis at height 50. -/
def uB : CAddressUnspentKey × CAddressUnspentValue := (⟨1, 0, 6, 1⟩, ⟨20, [], 50⟩)

/-- Database returning the two unspent outputs in height-descending order. -/
def utxoDB : BlockTreeDB :=
  { readAddressIndex := fun _ _ _ _ => none,
    readAddressUnspentIndex := fun _ _ => some [uA, uB],
    readSpentIndex := fun _ => none,
    readTimestampIndex := fun _ _ => none }

/-- Environment for the UTXO witness. -/
def utxoEnv : NodeEnv := { onEnv with db := utxoDB }

/-- Closed instance of `utxos_sorted`: the height-50 output is emitted
before the height-60 output. -/
theorem utxos_sorted_witness :
    List.Pairwise (fun a b : UtxoRow => a.height ≤ b.height)
      (UtxosResult.plain [utxoRow uB, utxoRow uA]).utxos ∧
    (UtxosResult.plain [utxoRow uB, utxoRow uA]).utxos.Perm ([uA, uB].map utxoRow) :=
  utxos_sorted utxoEnv [(0, 1)] false (.plain [utxoRow uB, utxoRow uA]) [uA, uB] rfl rfl

theorem mempoolRows_ok (l : List (CMempoolAddressDeltaKey × CMempoolAddressDelta)) :
    ∀ r, mempoolRows l = .ok r → r = l.map mempoolRow := by
  induction l with
  | nil =>
    intro r h
    obtain rfl := Except.ok.inj h
    rfl
  | cons e rest ih =>
    intro r h
    simp only [mempoolRows] at h
    by_cases hv : getAddressFromIndex e.1.type
    · rw [if_pos hv] at h
      cases hrest : mempoolRows rest with
      | error err => rw [hrest] at h; exact Except.noConfusion h
      | ok rr =>
        rw [hrest] at h
        obtain rfl := Except.ok.inj h
        simp [ih rr hrest]
    · rw [if_neg hv] at h; exact Except.noConfusion h

/-- C9: on every successful run of the mempool-deltas query fed by the
mempool collaborator's delta list, the returned rows are sorted
nondecreasing by mempool-entry time, each row carries the previous-output
pair exactly when its delta amount is negative, and the rows are a
permutation of the collaborator's rows. -/
theorem mempool_deltas_sorted (env : NodeEnv) (addresses : List (Nat × Nat))
    (indexes : List (CMempoolAddressDeltaKey × CMempoolAddressDelta))
    (rows : List MempoolDeltaRow)
    (hidx : env.mempool.getAddressIndex addresses = some indexes)
    (hok : getaddressmempool env addresses = .ok rows) :
    List.Pairwise (fun a b : MempoolDeltaRow => a.timestamp ≤ b.timestamp) rows ∧
    (∀ r ∈ rows, r.prev.isSome ↔ r.satoshis < 0) ∧
    rows.Perm (indexes.map mempoolRow) := by
  unfold getaddressmempool at hok
  split at hok
  · exact absurd hok (by simp)
  · split at hok
    next heq => rw [hidx] at heq; exact Option.noConfusion heq
    next idx2 heq =>
      rw [hidx] at heq
      obtain rfl := Option.some.inj heq
      have hrows := mempoolRows_ok _ _ hok
      refine ⟨?_, ?_, ?_⟩
      · rw [hrows]
        exact List.Pairwise.map _ (fun a b hab => hab)
          (List.sorted_insertionSort timeRel indexes)
      · intro r hr
        rw [hrows] at hr
        obtain ⟨e, _, rfl⟩ := List.mem_map.mp hr
        by_cases hneg : e.2.amount < 0 <;> simp [mempoolRow, hneg]
      · rw [hrows]
        exact (List.perm_insertionSort timeRel indexes).map mempoolRow

/-- Mempool spend delta of -5 entered at time 200 (carries prevhash 17,
prevout 2). -/
def mpE1 : CMempoolAddressDeltaKey × CMempoolAddressDelta := (⟨1, 0, 21, 0⟩, ⟨200, -5, 17, 2⟩)

/-- Mempool receive delta of +7 entered at time 100. -/
def mpE2 : CMempoolAddressDeltaKey × CMempoolAddressDelta := (⟨1, 0, 22, 1⟩, ⟨100, 7, 0, 0⟩)

/-- Mempool returning the two deltas in time-descending order. -/
def mpMempool : Mempool :=
  { getSpentIndex := fun _ => none,
    getAddressIndex := fun _ => some [mpE1, mpE2] }

/-- Environment for the mempool-deltas witness. -/
def mpEnv : NodeEnv := { onEnv with mempool := mpMempool }

/-- Closed instance of `mempool_deltas_sorted`: the time-100 receive is
emitted before the time-200 spend, and only the spend carries prev info. -/
theorem mempool_deltas_sorted_witness :
    List.Pairwise (fun a b : MempoolDeltaRow => a.timestamp ≤ b.timestamp)
      [mempoolRow mpE2, mempoolRow mpE1] ∧
    (∀ r ∈ [mempoolRow mpE2, mempoolRow mpE1], r.prev.isSome ↔ r.satoshis < 0) ∧
    List.Perm [mempoolRow mpE2, mempoolRow mpE1] ([mpE1, mpE2].map mempoolRow) :=
  mempool_deltas_sorted mpEnv [(0, 1)] [mpE1, mpE2] [mempoolRow mpE2, mempoolRow mpE1] rfl rfl

/-- Relation form of `pairLt`, used to state sortedness of the ordered
set of `getaddresstxids`. -/
def pairLtRel (a b : Int × Nat) : Prop := pairLt a b = true

instance : DecidableRel pairLtRel := fun a b => instDecidableEqBool (pairLt a b) true

/-- Specification-side in-place deduplication (the spec's "preserves the
index's natural scan order while suppressing duplicate txids in place"):
emit each pair not seen before, in scan order. -/
def scanDedupP (seen : List (Int × Nat)) : List (Int × Nat) → List (Int × Nat)
  | [] => []
  | p :: rest => if p ∈ seen then scanDedupP seen rest else p :: scanDedupP (p :: seen) rest

theorem pairLt_iff (a b : Int × Nat) :
    pairLt a b = true ↔ (a.1 < b.1 ∨ (a.1 = b.1 ∧ a.2 < b.2)) := by
  simp [pairLt]

theorem pairLt_irrefl (a : Int × Nat) : pairLt a a = false := by
  simp [pairLt]

theorem pairLt_asymm (a b : Int × Nat) (h : pairLt a b = true) : pairLt b a = false := by
  rw [pairLt_iff] at h
  cases hba : pairLt b a
  · rfl
  · rw [pairLt_iff] at hba
    exfalso
    omega

theorem pairLt_total_eq (a b : Int × Nat) (h1 : pairLt a b = false) (h2 : pairLt b a = false) :
    a = b := by
  obtain ⟨a1, a2⟩ := a
  obtain ⟨b1, b2⟩ := b
  simp [pairLt] at h1 h2
  obtain ⟨h1a, h1b⟩ := h1
  obtain ⟨h2a, h2b⟩ := h2
  have e1 : a1 = b1 := by omega
  subst e1
  have e2 : a2 = b2 := by
    have := h1b rfl
    have := h2b rfl
    omega
  subst e2
  rfl

theorem pairLt_trans (a b c : Int × Nat) (h1 : pairLt a b = true) (h2 : pairLt b c = true) :
    pairLt a c = true := by
  rw [pairLt_iff] at h1 h2 ⊢
  omega

theorem bool_not_true_false {b : Bool} (h : ¬ b = true) : b = false := by
  cases b
  · rfl
  · exact absurd rfl h

theorem setInsert_mem (p : Int × Nat) (s : List (Int × Nat)) :
    ∀ q, q ∈ (setInsert p s).1 ↔ q = p ∨ q ∈ s := by
  induction s with
  | nil => intro q; simp [setInsert]
  | cons a s ih =>
    intro q
    simp only [setInsert]
    by_cases h1 : pairLt p a = true
    · rw [if_pos h1]
      simp [List.mem_cons]
    · rw [if_neg h1]
      by_cases h2 : pairLt a p = true
      · rw [if_pos h2]
        simp only [List.mem_cons, ih q]
        tauto
      · rw [if_neg h2]
        have hpa : p = a := pairLt_total_eq p a (bool_not_true_false h1) (bool_not_true_false h2)
        subst hpa
        simp [List.mem_cons]

theorem setInsert_of_mem (p : Int × Nat) (s : List (Int × Nat))
    (hs : List.Sorted pairLtRel s) (hp : p ∈ s) : setInsert p s = (s, false) := by
  induction s with
  | nil => cases hp
  | cons a s ih =>
    simp only [setInsert]
    rcases List.mem_cons.mp hp with rfl | hp2
    · rw [if_neg (by rw [pairLt_irrefl]; exact Bool.false_ne_true),
        if_neg (by rw [pairLt_irrefl]; exact Bool.false_ne_true)]
    · have hap : pairLt a p = true := List.rel_of_sorted_cons hs p hp2
      rw [if_neg (by rw [pairLt_asymm a p hap]; exact Bool.false_ne_true), if_pos hap,
        ih (List.sorted_cons.mp hs).2 hp2]

theorem setInsert_snd_of_not_mem (p : Int × Nat) (s : List (Int × Nat)) (hp : p ∉ s) :
    (setInsert p s).2 = true := by
  induction s with
  | nil => rfl
  | cons a s ih =>
    have hpa : p ≠ a := fun h => hp (h ▸ List.mem_cons_self a s)
    have hps : p ∉ s := fun h => hp (List.mem_cons_of_mem a h)
    simp only [setInsert]
    by_cases h1 : pairLt p a = true
    · rw [if_pos h1]
    · rw [if_neg h1]
      by_cases h2 : pairLt a p = true
      · rw [if_pos h2]
        exact ih hps
      · exact absurd (pairLt_total_eq p a (bool_not_true_false h1) (bool_not_true_false h2)) hpa

theorem setInsert_sorted (p : Int × Nat) (s : List (Int × Nat))
    (hs : List.Sorted pairLtRel s) : List.Sorted pairLtRel (setInsert p s).1 := by
  induction s with
  | nil => simp [setInsert, List.sorted_singleton]
  | cons a s ih =>
    obtain ⟨hhead, htail⟩ := List.sorted_cons.mp hs
    simp only [setInsert]
    by_cases h1 : pairLt p a = true
    · rw [if_pos h1]
      refine List.sorted_cons.mpr ⟨?_, hs⟩
      intro b hb
      rcases List.mem_cons.mp hb with rfl | hb2
      · exact h1
      · exact pairLt_trans p a b h1 (hhead b hb2)
    · rw [if_neg h1]
      by_cases h2 : pairLt a p = true
      · rw [if_pos h2]
        refine List.sorted_cons.mpr ⟨?_, ih htail⟩
        intro b hb
        rcases (setInsert_mem p s b).mp hb with rfl | hb2
        · exact h2
        · exact hhead b hb2
      · rw [if_neg h2]
        exact hs

theorem txidsFold_multi (pairs : List (Int × Nat)) :
    ∀ s r, List.Sorted pairLtRel s →
      List.Sorted pairLtRel (txidsFold true pairs s r).1 ∧
      (∀ q, q ∈ (txidsFold true pairs s r).1 ↔ q ∈ s ∨ q ∈ pairs) ∧
      (txidsFold true pairs s r).2 = r := by
  induction pairs with
  | nil =>
    intro s r hs
    exact ⟨hs, by simp [txidsFold], rfl⟩
  | cons p rest ih =>
    intro s r hs
    obtain ⟨h1, h2, h3⟩ := ih (setInsert p s).1 r (setInsert_sorted p s hs)
    have hstep : txidsFold true (p :: rest) s r = txidsFold true rest (setInsert p s).1 r := by
      simp [txidsFold]
    rw [hstep]
    refine ⟨h1, ?_, h3⟩
    intro q
    rw [h2 q, setInsert_mem]
    simp [List.mem_cons] <;> tauto

theorem scanDedupP_congr (l : List (Int × Nat)) :
    ∀ s₁ s₂, (∀ q, q ∈ s₁ ↔ q ∈ s₂) → scanDedupP s₁ l = scanDedupP s₂ l := by
  induction l with
  | nil => intro s₁ s₂ _; rfl
  | cons p rest ih =>
    intro s₁ s₂ h
    simp only [scanDedupP]
    by_cases hp : p ∈ s₁
    · rw [if_pos hp, if_pos ((h p).mp hp), ih s₁ s₂ h]
    · rw [if_neg hp, if_neg (fun hq => hp ((h p).mpr hq)),
        ih (p :: s₁) (p :: s₂) (fun q => by simp [List.mem_cons, h q])]

theorem txidsFold_single (pairs : List (Int × Nat)) :
    ∀ s r, List.Sorted pairLtRel s →
      (txidsFold false pairs s r).2 = r ++ (scanDedupP s pairs).map (·.2) := by
  induction pairs with
  | nil => intro s r _; simp [txidsFold, scanDedupP]
  | cons p rest ih =>
    intro s r hs
    simp only [txidsFold, scanDedupP]
    by_cases hp : p ∈ s
    · rw [if_pos hp]
      have heq := setInsert_of_mem p s hs hp
      rw [heq]
      simp only [Bool.false_eq_true, if_false]
      exact ih s r hs
    · rw [if_neg hp]
      have h2 := setInsert_snd_of_not_mem p s hp
      rw [h2]
      simp only [Bool.false_eq_true, if_false, if_true]
      rw [ih (setInsert p s).1 (r ++ [p.2]) (setInsert_sorted p s hs),
        scanDedupP_congr rest (setInsert p s).1 (p :: s)
          (fun q => by rw [setInsert_mem]; simp [List.mem_cons])]
      simp

theorem scanDedupP_mem (l : List (Int × Nat)) :
    ∀ seen q, q ∈ scanDedupP seen l ↔ (q ∈ l ∧ q ∉ seen) := by
  induction l with
  | nil => intro seen q; simp [scanDedupP]
  | cons p rest ih =>
    intro seen q
    simp only [scanDedupP]
    by_cases hp : p ∈ seen
    · rw [if_pos hp, ih seen q]
      constructor
      · rintro ⟨hq, hns⟩
        exact ⟨List.mem_cons_of_mem p hq, hns⟩
      · rintro ⟨hq, hns⟩
        rcases List.mem_cons.mp hq with rfl | hq2
        · exact absurd hp hns
        · exact ⟨hq2, hns⟩
    · rw [if_neg hp]
      constructor
      · intro hq
        rcases List.mem_cons.mp hq with rfl | hq2
        · exact ⟨List.mem_cons_self q rest, hp⟩
        · obtain ⟨hq3, hq4⟩ := (ih (p :: seen) q).mp hq2
          exact ⟨List.mem_cons_of_mem p hq3,
            fun hmem => hq4 (List.mem_cons_of_mem p hmem)⟩
      · rintro ⟨hq, hns⟩
        rcases List.mem_cons.mp hq with rfl | hq2
        · exact List.mem_cons_self q _
        · by_cases hqp : q = p
          · subst hqp
            exact List.mem_cons_self q _
          · refine List.mem_cons_of_mem p ((ih (p :: seen) q).mpr ⟨hq2, ?_⟩)
            intro hmem
            rcases List.mem_cons.mp hmem with h | h
            · exact hqp h
            · exact hns h

theorem scanDedupP_nodup (l : List (Int × Nat)) :
    ∀ seen, (scanDedupP seen l).Nodup := by
  induction l with
  | nil => intro seen; simp [scanDedupP]
  | cons p rest ih =>
    intro seen
    simp only [scanDedupP]
    by_cases hp : p ∈ seen
    · rw [if_pos hp]; exact ih seen
    · rw [if_neg hp]
      refine List.nodup_cons.mpr ⟨?_, ih (p :: seen)⟩
      intro hmem
      exact ((scanDedupP_mem rest (p :: seen) p).mp hmem).2 (List.mem_cons_self p seen)

theorem entryPair_snd (e : CAddressIndexKey × Int) : (entryPair e).2 = e.1.txhash := rfl

theorem pairs_snd_inj (entries : List (CAddressIndexKey × Int))
    (hco : ∀ e1 ∈ entries, ∀ e2 ∈ entries,
      e1.1.txhash = e2.1.txhash → e1.1.blockHeight = e2.1.blockHeight) :
    ∀ x ∈ entries.map entryPair, ∀ y ∈ entries.map entryPair, x.2 = y.2 → x = y := by
  intro x hx y hy hxy
  obtain ⟨e1, he1, rfl⟩ := List.mem_map.mp hx
  obtain ⟨e2, he2, rfl⟩ := List.mem_map.mp hy
  have hh := hco e1 he1 e2 he2 hxy
  simp only [entryPair, Prod.mk.injEq]
  exact ⟨hh, hxy⟩

/-- C6: provided entries sharing a txid share a block height (one
confirmed transaction has one position), the TxIds assembly lists each
transaction id exactly once (no duplicates, and a txid appears iff some
scanned entry carries it); with at most one queried address the output is
the scan-order in-place deduplication of the (height, txid) pairs, and
with more than one address the output is the ordered deduplication set —
sorted strictly ascending by (height, txid) and containing exactly the
scanned pairs — mapped to its txids. -/
theorem txids_dedup (naddr : Nat) (entries : List (CAddressIndexKey × Int))
    (hco : ∀ e1 ∈ entries, ∀ e2 ∈ entries,
      e1.1.txhash = e2.1.txhash → e1.1.blockHeight = e2.1.blockHeight) :
    (txidsResult naddr entries).Nodup ∧
    (∀ t, t ∈ txidsResult naddr entries ↔ ∃ e ∈ entries, e.1.txhash = t) ∧
    (naddr ≤ 1 → txidsResult naddr entries =
      (scanDedupP [] (entries.map entryPair)).map (·.2)) ∧
    (1 < naddr →
      List.Sorted pairLtRel (txidsFold true (entries.map entryPair) [] []).1 ∧
      (∀ q, q ∈ (txidsFold true (entries.map entryPair) [] []).1 ↔
        q ∈ entries.map entryPair) ∧
      txidsResult naddr entries =
        ((txidsFold true (entries.map entryPair) [] []).1).map (·.2)) := by
  by_cases hn : 1 < naddr
  · have hres : txidsResult naddr entries =
        ((txidsFold true (entries.map entryPair) [] []).1).map (·.2) := by
      simp [txidsResult, hn]
    obtain ⟨hsort, hmem, -⟩ :=
      txidsFold_multi (entries.map entryPair) [] [] List.sorted_nil
    have hmem' : ∀ q, q ∈ (txidsFold true (entries.map entryPair) [] []).1 ↔
        q ∈ entries.map entryPair := by
      intro q
      rw [hmem q]
      simp
    have hnd : (txidsFold true (entries.map entryPair) [] []).1.Nodup := by
      refine List.Pairwise.imp ?_ hsort
      intro a b hab heq
      subst heq
      have := pairLt_irrefl a
      rw [pairLtRel] at hab
      rw [this] at hab
      exact Bool.false_ne_true hab
    refine ⟨?_, ?_, fun h => absurd hn (by omega), fun _ => ⟨hsort, hmem', hres⟩⟩
    · rw [hres]
      exact List.Nodup.map_on
        (fun x hx y hy hxy =>
          pairs_snd_inj entries hco x ((hmem' x).mp hx) y ((hmem' y).mp hy) hxy) hnd
    · intro t
      rw [hres, List.mem_map]
      constructor
      · rintro ⟨q, hq, rfl⟩
        obtain ⟨e, he, rfl⟩ := List.mem_map.mp ((hmem' q).mp hq)
        exact ⟨e, he, rfl⟩
      · rintro ⟨e, he, rfl⟩
        exact ⟨entryPair e, (hmem' (entryPair e)).mpr (List.mem_map_of_mem entryPair he), rfl⟩
  · have hres : txidsResult naddr entries =
        (scanDedupP [] (entries.map entryPair)).map (·.2) := by
      have h1 : txidsResult naddr entries = (txidsFold false (entries.map entryPair) [] []).2 := by
        simp [txidsResult, hn]
      rw [h1, txidsFold_single (entries.map entryPair) [] [] List.sorted_nil]
      simp
    have hsub : ∀ q, q ∈ scanDedupP [] (entries.map entryPair) → q ∈ entries.map entryPair :=
      fun q hq => ((scanDedupP_mem (entries.map entryPair) [] q).mp hq).1
    refine ⟨?_, ?_, fun _ => hres, fun h => absurd h hn⟩
    · rw [hres]
      exact List.Nodup.map_on
        (fun x hx y hy hxy => pairs_snd_inj entries hco x (hsub x hx) y (hsub y hy) hxy)
        (scanDedupP_nodup (entries.map entryPair) [])
    · intro t
      rw [hres, List.mem_map]
      constructor
      · rintro ⟨q, hq, rfl⟩
        obtain ⟨e, he, rfl⟩ := List.mem_map.mp (hsub q hq)
        exact ⟨e, he, rfl⟩
      · rintro ⟨e, he, rfl⟩
        refine ⟨entryPair e, ?_, rfl⟩
        rw [scanDedupP_mem]
        exact ⟨List.mem_map_of_mem entryPair he, List.not_mem_nil _⟩

/-- Address-index entries for two different addresses (hashes 5 and 6)
touched by the same transaction 77 at height 10. -/
def txEntries : List (CAddressIndexKey × Int) :=
  [(⟨1, 5, 10, 0, 77, 0, false⟩, 50), (⟨1, 6, 10, 1, 77, 0, true⟩, -50)]

/-- Closed instance of `txids_dedup`: two addresses sharing transaction 77
produce the single-element txid list [77]. -/
theorem txids_dedup_witness :
    (txidsResult 2 txEntries).Nodup ∧ txidsResult 2 txEntries = [77] := by
  have h := txids_dedup 2 txEntries (by decide)
  exact ⟨h.1, rfl⟩

end UmamiIndex
